import Mathlib

/-!
# Verification of go-pcp (`pcp.go`)

A shallow embedding of the resolution/copy engine of go-pcp, the tool that
copies a Go package and its dependencies into a fresh workspace (GOPATH).

Layering of the embedding, mirroring the Go source `pcp.go`:

* The *package level* (`findPkgM`, `copyPkgAux`, `copyPkgListAux`) embeds
  `findPkg` and `copyPkg`.  The external collaborators (`go/build`'s
  `build.Import`, `go get` via `getPackage`, the tree copier `copyDir` and
  sub-package scanner `findSubPkgs`) are abstracted as oracle fields of `Env`,
  exactly at the call boundary that `copyPkg` uses.  The mutable globals of the
  Go program (`resolved`, plus the externally visible copy/fetch effects) are
  threaded as an explicit state `St`.  Since the Go recursion has no syntactic
  termination measure, `copyPkgAux` takes a fuel argument; `none` means the
  fuel ran out, i.e. the Go program would still be recursing.

* The *walk level* (`walkNode`, `walkList`, `findSubPkgsWalk`, `copyDirModel`)
  embeds `filepath.Walk` together with the two walk callbacks of the source
  (`findSubPkgs` and `copyDir`), over an explicit directory tree `FSTree`.
  File-system effects (`os.MkdirAll`, `os.Create`+`io.Copy`, `os.Chmod`) are
  recorded as an `FsAction` trace and given a semantics `applyActions`.

* The *CLI level* (`parseImportM`, `checkErrorM`, `mainLoop`) embeds
  `parseImport`, `checkError` and the argument loop of `main`, enough to
  reason about the program's exit status.
-/

/-- Package metadata as `copyPkg` consumes it from `*build.Package`:
the import path, package name, source directory, GOROOT flag, and declared
direct imports. -/
structure PackageMetadata where
  importPath : String
  name : String
  dir : String
  goroot : Bool
  imports : List String
  deriving Repr, DecidableEq

/-- The effects `copyPkg` can perform, recorded for the theorems:
a tree copy `copyDir(srcDir, dst)` or a fetch `getPackage(importPath)`. -/
inductive PkgAction where
  | copy (srcDir dst : String)
  | fetch (importPath : String)
  deriving Repr, DecidableEq

/-- The errors of `pcp.go`: `syntaxErr`, `fmtErr` (both carrying a formatted
message and a diagnostic string) and any other `error` value (the `default`
case of `checkError`'s type switch). -/
inductive GoErr where
  | syntaxErr (fmt err : String)
  | fmtErr (fmt err : String)
  | other (msg : String)
  deriving Repr, DecidableEq

/-- Oracles for the external collaborators of `copyPkg`, fixed for one run:

* `buildImport path srcDir` abstracts `build.Import(path, srcDir, ...)`:
  the returned metadata (a `*build.Package` is non-nil even on failure)
  together with an optional error message;
* `abs` abstracts `filepath.Abs` (total: its failure is not modelled);
* `fetchErr pkg` abstracts the outcome of `getPackage(pkg, gopath)`;
* `copyDirErrs src dst` abstracts the error list of `copyDir(src, dst)`;
* `findSubPkgs dir importPath` abstracts `findSubPkgs`, returning the
  `(path, newImportPath)` pairs it would yield;
* `recursive` and `workspace` are the corresponding globals. -/
structure Env where
  buildImport : String → String → PackageMetadata × Option String
  abs : String → String
  fetchErr : String → Option GoErr
  copyDirErrs : String → String → List GoErr
  findSubPkgs : String → String → List (String × String)
  recursive : Bool
  workspace : String

/-- The mutable state visible to `copyPkg`: the global `resolved` set
(`map[string]bool`, modelled as the list of keys set to true) and the log of
copy/fetch effects performed so far. -/
structure St where
  resolved : List String
  log : List PkgAction
  deriving Repr, DecidableEq

/-- `strings.HasPrefix`, stated on the character lists underlying `String`
so that it evaluates by kernel reduction (Lean's `String.startsWith` is
defined by well-founded recursion and does not). -/
def hasPrefix (s pre : String) : Bool :=
  pre.data.isPrefixOf s.data

/-- `build.IsLocalImport(path)`: the path is `.`, `..`, or starts with
`./` or `../`. -/
def isLocalImport (p : String) : Bool :=
  p = "." || p = ".." || hasPrefix p "./" || hasPrefix p "../"

/-- The directory-path test of `findPkg`:
`build.IsLocalImport(path) || path[0] == '/'`.  (On the empty string the Go
expression `path[0]` would panic; the model returns `false` there, a case no
claim touches.) -/
def isDirPath (p : String) : Bool :=
  isLocalImport p || hasPrefix p "/"

/-- `findPkg(path, newImportPath)` from `pcp.go`: if `path` is a directory
path it is made absolute and looked up as the import `"."` in that directory,
otherwise it is looked up as-is against the ambient GOPATH; afterwards the
package's import path is overridden by `newImportPath` when non-empty.
The returned error is only ever tested for non-nilness by `copyPkg`, so the
model keeps the raw message. -/
def findPkgM (env : Env) (path newImportPath : String) :
    PackageMetadata × Option String :=
  let args :=
    if isDirPath path then
      -- `if !filepath.IsAbs(path) { path = filepath.Abs(path) }; srcDir = path`
      ((".", if hasPrefix path "/" then path else env.abs path) :
        String × String)
    else
      (path, "")
  let res := env.buildImport args.1 args.2
  let pkg := if newImportPath ≠ "" then
      { res.1 with importPath := newImportPath }
    else res.1
  (pkg, res.2)

mutual

/-- Fueled embedding of `copyPkg(path, newImportPath)` from `pcp.go`.
Returns `none` when the fuel runs out (the Go recursion would still be
running), otherwise `some (errs, st')` with the returned error slice and the
updated global state.  The body follows the source line by line:

1. `findPkg`;
2. the visited-set gate on `resolved[pkg.ImportPath]`;
3. the unresolvable branch: `getPackage`, mark resolved, single error on
   fetch failure;
4. the resolved non-GOROOT branch: `copyDir` into
   `filepath.Join(workspace, "src", pkg.ImportPath)`, recursion over
   `pkg.Imports`, mark resolved, then (when `recursive`) recursion over
   `findSubPkgs`;
5. the GOROOT branch: fall through, returning the (empty) `errs`. -/
def copyPkgAux (env : Env) : Nat → St → String → String →
    Option (List GoErr × St)
  | 0, _, _, _ => none
  | fuel + 1, st, path, newImportPath =>
    let res := findPkgM env path newImportPath
    let pkg := res.1
    if pkg.importPath ∈ st.resolved then
      some ([], st)
    else if res.2.isSome || pkg.name = "" then
      -- `getPackage(pkg.ImportPath, gopath)`; then `resolved[...] = true`
      let st₁ : St := { st with log := st.log ++ [.fetch pkg.importPath] }
      let st₂ : St := { st₁ with resolved := pkg.importPath :: st₁.resolved }
      match env.fetchErr pkg.importPath with
      | some e => some ([e], st₂)
      | none => some ([], st₂)
    else if !pkg.goroot then
      let dst := env.workspace ++ "/src/" ++ pkg.importPath
      let copyErrs := env.copyDirErrs pkg.dir dst
      let st₁ : St := { st with log := st.log ++ [.copy pkg.dir dst] }
      -- (the source's `if err != nil { return }` here is dead: this branch
      -- requires `err == nil`)
      match copyPkgListAux env fuel st₁ (pkg.imports.map fun d => (d, "")) with
      | none => none
      | some (depErrs, st₂) =>
        let st₃ : St := { st₂ with resolved := pkg.importPath :: st₂.resolved }
        let subs := if env.recursive then
            env.findSubPkgs pkg.dir pkg.importPath
          else []
        match copyPkgListAux env fuel st₃ subs with
        | none => none
        | some (subErrs, st₄) => some (copyErrs ++ depErrs ++ subErrs, st₄)
    else
      some ([], st)

/-- The `for` loops of `copyPkg` that call `copyPkg` on a list of
`(path, newImportPath)` arguments, appending all error slices. -/
def copyPkgListAux (env : Env) : Nat → St → List (String × String) →
    Option (List GoErr × St)
  | _, st, [] => some ([], st)
  | fuel, st, arg :: rest =>
    match copyPkgAux env fuel st arg.1 arg.2 with
    | none => none
    | some (errs₁, st₁) =>
      match copyPkgListAux env fuel st₁ rest with
      | none => none
      | some (errs₂, st₂) => some (errs₁ ++ errs₂, st₂)

end

/-- The recursive-call arguments that a `copyPkg(path, newImportPath)` call
produces in the resolved non-GOROOT branch (dependencies, then sub-packages
when `recursive` is set); empty in every other branch.  Used to phrase
acyclicity of the dependency/sub-package graph. -/
def children (env : Env) (path newImportPath : String) :
    List (String × String) :=
  let res := findPkgM env path newImportPath
  let pkg := res.1
  if res.2.isSome || pkg.name = "" then []
  else if !pkg.goroot then
    (pkg.imports.map fun d => (d, "")) ++
      (if env.recursive then env.findSubPkgs pkg.dir pkg.importPath else [])
  else []

/-!
## Branch equation lemmas for `copyPkgAux`

One lemma per branch of `copyPkg`: the visited-set gate, the unresolvable
(fetch) branch, the resolved GOROOT branch, and the resolved non-GOROOT
(copy) branch.
-/
theorem copyPkgAux_gate (env : Env) (n : Nat) (st : St) (path nip : String)
    (h : (findPkgM env path nip).1.importPath ∈ st.resolved) :
    copyPkgAux env (n + 1) st path nip = some ([], st) := by
  simp only [copyPkgAux]
  simp [h]

theorem copyPkgAux_fetch (env : Env) (n : Nat) (st : St) (path nip : String)
    (hgate : (findPkgM env path nip).1.importPath ∉ st.resolved)
    (hbr : (findPkgM env path nip).2.isSome = true ∨
      (findPkgM env path nip).1.name = "") :
    copyPkgAux env (n + 1) st path nip =
      some ((env.fetchErr (findPkgM env path nip).1.importPath).toList,
        { resolved := (findPkgM env path nip).1.importPath :: st.resolved,
          log := st.log ++ [.fetch (findPkgM env path nip).1.importPath] }) := by
  simp only [copyPkgAux]
  simp only [if_neg hgate]
  have hb : ((findPkgM env path nip).2.isSome ||
      decide ((findPkgM env path nip).1.name = "")) = true := by
    rcases hbr with h | h <;> simp [h]
  simp only [hb, if_pos rfl]
  cases hfe : env.fetchErr (findPkgM env path nip).1.importPath <;> simp [hfe]

theorem copyPkgAux_goroot (env : Env) (n : Nat) (st : St) (path nip : String)
    (hres : (findPkgM env path nip).2 = none)
    (hname : (findPkgM env path nip).1.name ≠ "")
    (hgo : (findPkgM env path nip).1.goroot = true) :
    copyPkgAux env (n + 1) st path nip = some ([], st) := by
  simp only [copyPkgAux]
  by_cases hgate : (findPkgM env path nip).1.importPath ∈ st.resolved
  · simp [hgate]
  · simp [hgate, hres, hname, hgo]

theorem copyPkgAux_copy (env : Env) (n : Nat) (st : St) (path nip : String)
    (hgate : (findPkgM env path nip).1.importPath ∉ st.resolved)
    (hres : (findPkgM env path nip).2 = none)
    (hname : (findPkgM env path nip).1.name ≠ "")
    (hgo : (findPkgM env path nip).1.goroot = false) :
    copyPkgAux env (n + 1) st path nip =
      (let pkg := (findPkgM env path nip).1
      let dst := env.workspace ++ "/src/" ++ pkg.importPath
      match copyPkgListAux env n { st with log := st.log ++ [.copy pkg.dir dst] }
          (pkg.imports.map fun d => (d, "")) with
      | none => none
      | some (depErrs, st₂) =>
        match copyPkgListAux env n
            { st₂ with resolved := pkg.importPath :: st₂.resolved }
            (if env.recursive then env.findSubPkgs pkg.dir pkg.importPath
             else []) with
        | none => none
        | some (subErrs, st₄) =>
          some (env.copyDirErrs pkg.dir dst ++ depErrs ++ subErrs, st₄)) := by
  simp only [copyPkgAux]
  simp [hgate, hres, hname, hgo]

theorem resolved_mono (env : Env) : ∀ n : Nat,
    (∀ st path nip r, copyPkgAux env n st path nip = some r →
      ∀ x ∈ st.resolved, x ∈ r.2.resolved) ∧
    (∀ st l r, copyPkgListAux env n st l = some r →
      ∀ x ∈ st.resolved, x ∈ r.2.resolved) := by
  intro n
  induction n with
  | zero =>
    constructor
    · intro st path nip r h; simp [copyPkgAux] at h
    · intro st l r h x hx
      match l with
      | [] => simp only [copyPkgListAux] at h; cases h; exact hx
      | a :: rest => simp [copyPkgAux, copyPkgListAux] at h
  | succ n ih =>
    have auxmono : ∀ st path nip r, copyPkgAux env (n + 1) st path nip = some r →
        ∀ x ∈ st.resolved, x ∈ r.2.resolved := by
      intro st path nip r h x hx
      simp only [copyPkgAux] at h
      split at h
      · cases h; exact hx
      · split at h
        · split at h <;> (cases h; exact List.mem_cons_of_mem _ hx)
        · split at h
          · split at h
            · exact absurd h (by simp)
            · next depErrs st₂ hdep =>
              split at h
              · exact absurd h (by simp)
              · next subErrs st₄ hsub =>
                cases h
                have h₂ := ih.2 _ _ _ hdep x hx
                exact ih.2 _ _ _ hsub x (List.mem_cons_of_mem _ h₂)
          · cases h; exact hx
    refine ⟨auxmono, ?_⟩
    intro st l
    induction l generalizing st with
    | nil => intro r h x hx; simp only [copyPkgListAux] at h; cases h; exact hx
    | cons a rest ihl =>
      intro r h x hx
      simp only [copyPkgListAux] at h
      split at h
      · exact absurd h (by simp)
      · next errs₁ st₁ h₁ =>
        split at h
        · exact absurd h (by simp)
        · next errs₂ st₂ h₂ =>
          cases h
          exact ihl _ _ h₂ x (auxmono _ _ _ _ h₁ x hx)

/-- C2: calling `copyPkg` twice with the same location performs the
underlying copy/fetch work exactly once.  If a first call
`copyPkg(path, newImportPath)` returned (with any outcome `errs` and
post-state `st₁`), then a second call with the same arguments returns an
empty error list and leaves the state — both the visited set and the log of
copy/fetch effects — completely unchanged: it performs no copy, no fetch and
no recursion.  In the branches that perform copy or fetch work the first
call marked the identifier, so the second call hits the visited-set gate;
in the GOROOT branch no work is performed by either call. -/
theorem claim_C2_idempotence (env : Env) (n m : Nat) (st : St)
    (path nip : String) (errs : List GoErr) (st₁ : St)
    (h : copyPkgAux env n st path nip = some (errs, st₁)) :
    copyPkgAux env (m + 1) st₁ path nip = some ([], st₁) := by
  match n with
  | 0 => simp [copyPkgAux] at h
  | n + 1 =>
    by_cases hgate : (findPkgM env path nip).1.importPath ∈ st.resolved
    · rw [copyPkgAux_gate env n st path nip hgate] at h
      cases h
      exact copyPkgAux_gate env m st path nip hgate
    · by_cases hb : (findPkgM env path nip).2.isSome = true ∨
          (findPkgM env path nip).1.name = ""
      · rw [copyPkgAux_fetch env n st path nip hgate hb] at h
        cases h
        exact copyPkgAux_gate env m _ path nip (List.mem_cons_self _ _)
      · push_neg at hb
        have hres : (findPkgM env path nip).2 = none := by
          rcases hb with ⟨hb1, -⟩
          exact Option.not_isSome_iff_eq_none.mp (by simpa using hb1)
        by_cases hgo : (findPkgM env path nip).1.goroot = true
        · rw [copyPkgAux_goroot env n st path nip hres hb.2 hgo] at h
          cases h
          exact copyPkgAux_goroot env m st path nip hres hb.2 hgo
        · replace hgo : (findPkgM env path nip).1.goroot = false := by
            simpa using hgo
          rw [copyPkgAux_copy env n st path nip hgate hres hb.2 hgo] at h
          simp only at h
          split at h
          · exact absurd h (by simp)
          · next depErrs st₂ hdep =>
            split at h
            · exact absurd h (by simp)
            · next subErrs st₄ hsub =>
              rw [Option.some_inj, Prod.mk.injEq] at h
              obtain ⟨-, hst⟩ := h
              subst hst
              exact copyPkgAux_gate env m _ path nip
                ((resolved_mono env n).2 _ _ _ hsub _ (List.mem_cons_self _ _))

/-!
## Termination of `copyPkg`

`copyPkg` recurses exactly through `children`.  When the dependency /
sub-package graph admits a rank function that decreases along every edge
(i.e. the graph is acyclic), a fuel of `rank + 1` always suffices, for any
starting state: the traversal terminates.  The two-package import cycle
`cycEnv` further below shows that with a cyclic graph the recursion really
diverges: no fuel suffices, because `resolved[pkg.ImportPath] = true` is only
executed *after* the recursion over `pkg.Imports` has returned.
-/

theorem copyPkgAux_isSome_of_rank (env : Env) (rank : String → String → Nat)
    (hrank : ∀ p ip, ∀ c ∈ children env p ip, rank c.1 c.2 < rank p ip) :
    ∀ n p ip st, rank p ip < n → (copyPkgAux env n st p ip).isSome = true := by
  intro n
  induction n using Nat.strong_induction_on with
  | _ n IH =>
    intro p ip st hr
    match n, hr with
    | n + 1, hr =>
      by_cases hgate : (findPkgM env p ip).1.importPath ∈ st.resolved
      · rw [copyPkgAux_gate env n st p ip hgate]; rfl
      · by_cases hb : (findPkgM env p ip).2.isSome = true ∨
            (findPkgM env p ip).1.name = ""
        · rw [copyPkgAux_fetch env n st p ip hgate hb]; rfl
        · push_neg at hb
          have hres : (findPkgM env p ip).2 = none :=
            Option.not_isSome_iff_eq_none.mp (by simpa using hb.1)
          by_cases hgo : (findPkgM env p ip).1.goroot = true
          · rw [copyPkgAux_goroot env n st p ip hres hb.2 hgo]; rfl
          · replace hgo : (findPkgM env p ip).1.goroot = false := by
              simpa using hgo
            have hch : children env p ip =
                ((findPkgM env p ip).1.imports.map fun d => (d, "")) ++
                  (if env.recursive then
                    env.findSubPkgs (findPkgM env p ip).1.dir
                      (findPkgM env p ip).1.importPath
                  else []) := by
              simp [children, hres, hb.2, hgo]
            have hle : rank p ip ≤ n := Nat.lt_succ_iff.mp hr
            have hchlt : ∀ c ∈ children env p ip, rank c.1 c.2 < n :=
              fun c hc => lt_of_lt_of_le (hrank p ip c hc) hle
            have hlist : ∀ l, (∀ c ∈ l, rank c.1 c.2 < n) →
                ∀ st', (copyPkgListAux env n st' l).isSome = true := by
              intro l
              induction l with
              | nil => intro _ st'; simp [copyPkgListAux]
              | cons a rest ihl =>
                intro hl st'
                have ha := IH n (Nat.lt_succ_self n) a.1 a.2 st'
                  (hl a (List.mem_cons_self _ _))
                obtain ⟨⟨e₁, s₁⟩, ha'⟩ := Option.isSome_iff_exists.mp ha
                have hrest := ihl (fun c hc => hl c (List.mem_cons_of_mem _ hc)) s₁
                obtain ⟨⟨e₂, s₂⟩, hrest'⟩ := Option.isSome_iff_exists.mp hrest
                simp [copyPkgListAux, ha', hrest']
            rw [copyPkgAux_copy env n st p ip hgate hres hb.2 hgo]
            have hdep := hlist ((findPkgM env p ip).1.imports.map fun d => (d, ""))
              (fun c hc => hchlt c (hch ▸ List.mem_append_left _ hc))
              { st with log := st.log ++
                  [.copy (findPkgM env p ip).1.dir
                    (env.workspace ++ "/src/" ++ (findPkgM env p ip).1.importPath)] }
            obtain ⟨⟨depErrs, st₂⟩, hdep'⟩ := Option.isSome_iff_exists.mp hdep
            have hsub := hlist
              (if env.recursive then
                env.findSubPkgs (findPkgM env p ip).1.dir
                  (findPkgM env p ip).1.importPath
              else [])
              (fun c hc => hchlt c (hch ▸ List.mem_append_right _ hc))
              { st₂ with resolved := (findPkgM env p ip).1.importPath :: st₂.resolved }
            obtain ⟨⟨subErrs, st₄⟩, hsub'⟩ := Option.isSome_iff_exists.mp hsub
            simp [hdep', hsub']

/-- Metadata of a package `A` that declares the direct dependency `B`. -/
def mdA : PackageMetadata :=
  { importPath := "A", name := "a", dir := "/gopath/src/A", goroot := false,
    imports := ["B"] }

/-- Metadata of a package `B` that declares the direct dependency `A`. -/
def mdB : PackageMetadata :=
  { importPath := "B", name := "b", dir := "/gopath/src/B", goroot := false,
    imports := ["A"] }

/-- An environment whose declared-dependency graph is the two-cycle
`A → B → A`: both packages resolve, neither is in GOROOT, tree copies
succeed, and there are no sub-packages. -/
def cycEnv : Env where
  buildImport := fun p _ =>
    if p = "A" then (mdA, none)
    else if p = "B" then (mdB, none)
    else ({ importPath := p, name := "", dir := "", goroot := false,
            imports := [] }, some "not found")
  abs := id
  fetchErr := fun _ => none
  copyDirErrs := fun _ _ => []
  findSubPkgs := fun _ _ => []
  recursive := true
  workspace := "/ws"

/-- On the cyclic graph, `copyPkg` never reaches the line that marks `A` or
`B` resolved, so for every state in which neither is yet resolved, every
amount of fuel is exhausted: the recursion diverges. -/
theorem cycEnv_diverges : ∀ n (st : St), "A" ∉ st.resolved →
    "B" ∉ st.resolved →
    copyPkgAux cycEnv n st "A" "" = none ∧
      copyPkgAux cycEnv n st "B" "" = none := by
  intro n
  induction n with
  | zero => intro st _ _; exact ⟨by simp [copyPkgAux], by simp [copyPkgAux]⟩
  | succ n ih =>
    intro st hA hB
    have hfA : findPkgM cycEnv "A" "" = (mdA, none) := by decide
    have hfB : findPkgM cycEnv "B" "" = (mdB, none) := by decide
    constructor
    · rw [copyPkgAux_copy cycEnv n st "A" "" (by rw [hfA]; exact hA)
        (by rw [hfA]) (by rw [hfA]; decide) (by rw [hfA]; decide)]
      have hstop := (ih { st with log := st.log ++
          [PkgAction.copy "/gopath/src/A" (cycEnv.workspace ++ "/src/" ++ "A")] }
        hA hB).2
      simp [hfA, mdA, copyPkgListAux, hstop]
    · rw [copyPkgAux_copy cycEnv n st "B" "" (by rw [hfB]; exact hB)
        (by rw [hfB]) (by rw [hfB]; decide) (by rw [hfB]; decide)]
      have hstop := (ih { st with log := st.log ++
          [PkgAction.copy "/gopath/src/B" (cycEnv.workspace ++ "/src/" ++ "B")] }
        hA hB).1
      simp [hfB, mdB, copyPkgListAux, hstop]

/-- C1 (counterexample): on the two-package declared-dependency cycle
`A → B → A` the call `copyPkg("A", "")` does not terminate: no amount of
fuel completes, because each package is marked visited only *after* its
dependency recursion has returned.  This refutes the claim that the
traversal terminates on every finite graph including cycles. -/
theorem claim_C1_cycle_counterexample :
    ¬ ∃ n, (copyPkgAux cycEnv n { resolved := [], log := [] } "A" "").isSome
      = true := by
  rintro ⟨n, hn⟩
  rw [(cycEnv_diverges n { resolved := [], log := [] } (by simp) (by simp)).1]
    at hn
  exact Bool.noConfusion hn

/-- C1 (amended): for every finite dependency/sub-package graph that is
acyclic — i.e. admits a rank function decreasing along every
dependency/sub-package edge, as any legal Go import graph does — `copyPkg`
terminates from any starting state: fuel `rank + 1` suffices. -/
theorem claim_C1_amended_termination (env : Env)
    (rank : String → String → Nat)
    (hrank : ∀ p ip, ∀ c ∈ children env p ip, rank c.1 c.2 < rank p ip)
    (p ip : String) (st : St) :
    (copyPkgAux env (rank p ip + 1) st p ip).isSome = true :=
  copyPkgAux_isSome_of_rank env rank hrank _ p ip st (Nat.lt_succ_self _)

/-- An environment in which no package resolves locally, so every call takes
the unresolvable (fetch) branch; its dependency graph has no edges. -/
def fetchAllEnv : Env where
  buildImport := fun p _ =>
    ({ importPath := p, name := "", dir := "", goroot := false,
       imports := [] }, some "cannot find package")
  abs := id
  fetchErr := fun _ => none
  copyDirErrs := fun _ _ => []
  findSubPkgs := fun _ _ => []
  recursive := true
  workspace := "/ws"

/-- Witness for the amended C1 at a concrete acyclic environment. -/
theorem claim_C1_amended_termination_witness :
    (copyPkgAux fetchAllEnv 1 { resolved := [], log := [] } "P" "").isSome
      = true := by
  have hrank : ∀ p ip, ∀ c ∈ children fetchAllEnv p ip,
      (fun _ _ => 0 : String → String → Nat) c.1 c.2 <
        (fun _ _ => 0 : String → String → Nat) p ip := by
    intro p ip c hc
    simp [children, findPkgM, fetchAllEnv] at hc
  exact claim_C1_amended_termination fetchAllEnv (fun _ _ => 0) hrank "P" ""
    { resolved := [], log := [] }

/-- Witness for C2: in `fetchAllEnv`, a first call on `"P"` fetches it; the
second call returns no errors and changes nothing. -/
theorem claim_C2_idempotence_witness :
    copyPkgAux fetchAllEnv 1
        { resolved := ["P"], log := [PkgAction.fetch "P"] } "P" "" =
      some ([], { resolved := ["P"], log := [PkgAction.fetch "P"] }) := by
  have h1 : copyPkgAux fetchAllEnv 1 { resolved := [], log := [] } "P" "" =
      some ([], { resolved := ["P"], log := [PkgAction.fetch "P"] }) := by
    rw [copyPkgAux_fetch fetchAllEnv 0 { resolved := [], log := [] } "P" ""
      (by decide) (by decide)]
    rfl
  exact claim_C2_idempotence fetchAllEnv 1 0 { resolved := [], log := [] }
    "P" "" [] _ h1

/-- C3: the unresolvable branch.  If the resolved identifier is not yet
visited and metadata resolution failed or produced no usable package name,
`copyPkg` invokes the fetcher on the identifier, marks the identifier
visited regardless of the fetch outcome, returns a single-element error list
exactly when the fetch fails (`Option.toList`), and performs no further
work: the log grows by exactly the one fetch action and nothing else — no
copy, no dependency recursion, no sub-package recursion. -/
theorem claim_C3_unresolvable_fetch (env : Env) (n : Nat) (st : St)
    (path nip : String)
    (hgate : (findPkgM env path nip).1.importPath ∉ st.resolved)
    (hbr : (findPkgM env path nip).2.isSome = true ∨
      (findPkgM env path nip).1.name = "") :
    copyPkgAux env (n + 1) st path nip =
      some ((env.fetchErr (findPkgM env path nip).1.importPath).toList,
        { resolved := (findPkgM env path nip).1.importPath :: st.resolved,
          log := st.log ++ [.fetch (findPkgM env path nip).1.importPath] }) :=
  copyPkgAux_fetch env n st path nip hgate hbr

/-- Witness for C3 at a concrete unresolvable package. -/
theorem claim_C3_unresolvable_fetch_witness :
    copyPkgAux fetchAllEnv 1 { resolved := [], log := [] } "Q" "" =
      some ((fetchAllEnv.fetchErr (findPkgM fetchAllEnv "Q" "").1.importPath).toList,
        { resolved := [(findPkgM fetchAllEnv "Q" "").1.importPath],
          log := [.fetch (findPkgM fetchAllEnv "Q" "").1.importPath] }) :=
  claim_C3_unresolvable_fetch fetchAllEnv 0 { resolved := [], log := [] }
    "Q" "" (by decide) (by decide)

/-- C5: the resolved, standard (GOROOT) branch.  If the package resolves
with a usable name and is flagged GOROOT, `copyPkg` returns no errors and
leaves the state — visited set and copy/fetch log — completely unchanged:
a standard package is never copied into the workspace and never fetched. -/
theorem claim_C5_standard_exclusion (env : Env) (n : Nat) (st : St)
    (path nip : String) (pkg : PackageMetadata)
    (hres : findPkgM env path nip = (pkg, none))
    (hname : pkg.name ≠ "") (hgo : pkg.goroot = true) :
    copyPkgAux env (n + 1) st path nip = some ([], st) :=
  copyPkgAux_goroot env n st path nip (by rw [hres])
    (by rw [hres]; exact hname) (by rw [hres]; exact hgo)

/-- An environment in which every location resolves to the GOROOT package
`fmt`. -/
def gorootEnv : Env where
  buildImport := fun p _ =>
    ({ importPath := p, name := "fmt", dir := "/goroot/src/fmt",
       goroot := true, imports := [] }, none)
  abs := id
  fetchErr := fun _ => none
  copyDirErrs := fun _ _ => [GoErr.fmtErr "should never be copied" "bug"]
  findSubPkgs := fun _ _ => []
  recursive := true
  workspace := "/ws"

/-- Witness for C5: copying the standard package `fmt` does nothing. -/
theorem claim_C5_standard_exclusion_witness :
    copyPkgAux gorootEnv 1 { resolved := [], log := [] } "fmt" "" =
      some ([], { resolved := [], log := [] }) :=
  claim_C5_standard_exclusion gorootEnv 0 { resolved := [], log := [] }
    "fmt" ""
    { importPath := "fmt", name := "fmt", dir := "/goroot/src/fmt",
      goroot := true, imports := [] }
    (by decide) (by decide) rfl

/-- C4: the resolved, non-standard branch continues past copy failures.
Whenever a call in this branch returns, the recursion over every declared
direct dependency and — when the recursive flag is set — over every
discovered sub-package did run (the two `copyPkgListAux` equations below),
with no condition whatsoever on the copy errors `env.copyDirErrs pkg.dir
dst`, and the returned error list is exactly the copy errors followed by the
dependency-recursion errors followed by the sub-package-recursion errors,
in call order. -/
theorem claim_C4_partial_failure_continuation (env : Env) (n : Nat)
    (st st' : St) (path nip : String) (pkg : PackageMetadata)
    (errs : List GoErr)
    (hres : findPkgM env path nip = (pkg, none))
    (hname : pkg.name ≠ "") (hgo : pkg.goroot = false)
    (hgate : pkg.importPath ∉ st.resolved)
    (h : copyPkgAux env (n + 1) st path nip = some (errs, st')) :
    ∃ depErrs st₂ subErrs,
      copyPkgListAux env n
        { st with log := st.log ++
            [.copy pkg.dir (env.workspace ++ "/src/" ++ pkg.importPath)] }
        (pkg.imports.map fun d => (d, "")) = some (depErrs, st₂) ∧
      copyPkgListAux env n
        { st₂ with resolved := pkg.importPath :: st₂.resolved }
        (if env.recursive then env.findSubPkgs pkg.dir pkg.importPath
         else []) = some (subErrs, st') ∧
      errs = env.copyDirErrs pkg.dir
          (env.workspace ++ "/src/" ++ pkg.importPath) ++ depErrs ++ subErrs
    := by
  rw [copyPkgAux_copy env n st path nip (by rw [hres]; exact hgate)
    (by rw [hres]) (by rw [hres]; exact hname) (by rw [hres]; exact hgo)] at h
  simp only [hres] at h
  split at h
  · exact absurd h (by simp)
  · next depErrs st₂ hdep =>
    split at h
    · exact absurd h (by simp)
    · next subErrs st₄ hsub =>
      rw [Option.some_inj, Prod.mk.injEq] at h
      obtain ⟨he, hst⟩ := h
      subst hst
      exact ⟨depErrs, st₂, subErrs, hdep, hsub, he.symm⟩

/-- An environment in which `A` resolves (declaring the dependency `B`,
which does not resolve and must be fetched) and every tree copy fails. -/
def failCopyEnv : Env where
  buildImport := fun p _ =>
    if p = "A" then (mdA, none)
    else ({ importPath := p, name := "", dir := "", goroot := false,
            imports := [] }, some "cannot find package")
  abs := id
  fetchErr := fun _ => none
  copyDirErrs := fun _ _ => [GoErr.fmtErr "Couldn't copy." "copy failed"]
  findSubPkgs := fun _ _ => []
  recursive := true
  workspace := "/ws"

/-- Witness for C4: copying `A` fails, yet the dependency `B` is still
fetched, and the error list is the copy failure followed by the (empty)
recursion errors. -/
theorem claim_C4_partial_failure_witness :
    ∃ depErrs st₂ subErrs,
      copyPkgListAux failCopyEnv 1
        { resolved := [],
          log := [PkgAction.copy "/gopath/src/A" "/ws/src/A"] }
        [("B", "")] = some (depErrs, st₂) ∧
      copyPkgListAux failCopyEnv 1
        { st₂ with resolved := "A" :: st₂.resolved } [] =
        some (subErrs,
          { resolved := ["A", "B"],
            log := [PkgAction.copy "/gopath/src/A" "/ws/src/A",
              PkgAction.fetch "B"] }) ∧
      [GoErr.fmtErr "Couldn't copy." "copy failed"] =
        failCopyEnv.copyDirErrs "/gopath/src/A" "/ws/src/A" ++ depErrs ++
          subErrs := by
  have hfB : ∀ lg, copyPkgAux failCopyEnv 1 { resolved := [], log := lg }
      "B" "" = some ([], { resolved := ["B"], log := lg ++ [.fetch "B"] }) := by
    intro lg
    rw [copyPkgAux_fetch failCopyEnv 0 { resolved := [], log := lg } "B" ""
      (by simp) (by decide)]
    rfl
  have hA : copyPkgAux failCopyEnv 2 { resolved := [], log := [] } "A" "" =
      some ([GoErr.fmtErr "Couldn't copy." "copy failed"],
        { resolved := ["A", "B"],
          log := [PkgAction.copy "/gopath/src/A" "/ws/src/A",
            PkgAction.fetch "B"] }) := by
    rw [copyPkgAux_copy failCopyEnv 1 { resolved := [], log := [] } "A" ""
      (by decide) (by decide) (by decide) (by decide)]
    have hf : findPkgM failCopyEnv "A" "" = (mdA, none) := by decide
    have hrec : failCopyEnv.recursive = true := rfl
    have hsubs : failCopyEnv.findSubPkgs = fun _ _ => [] := rfl
    have hcde : failCopyEnv.copyDirErrs = fun _ _ =>
        [GoErr.fmtErr "Couldn't copy." "copy failed"] := rfl
    have hws : failCopyEnv.workspace = "/ws" := rfl
    simp [hf, mdA, copyPkgListAux, hfB, hrec, hsubs, hcde, hws]
  exact claim_C4_partial_failure_continuation failCopyEnv 1
    { resolved := [], log := [] } _ "A" "" mdA _ (by decide) (by decide)
    (by decide) (by decide) hA

/-- C10: for an ordinary import-path-style location `p` (not a directory
path starting with `.` or `/`), and a resolver that — like `go/build` for
non-local imports — reports the looked-up path itself as the import path,
`copyPkg(p, "")` and `copyPkg(p, p)` are the same computation: same resolved
identifier, same error list, same visited set, same copy/fetch effects. -/
theorem claim_C10_default_import_path (env : Env) (n : Nat) (st : St)
    (p : String) (hdir : isDirPath p = false)
    (hres : (env.buildImport p "").1.importPath = p) :
    copyPkgAux env n st p "" = copyPkgAux env n st p p := by
  by_cases hp : p = ""
  · subst hp; rfl
  · have hset : ∀ m : PackageMetadata, m.importPath = p →
        ({ m with importPath := p } : PackageMetadata) = m := by
      intro m hm
      cases hm
      rfl
    have hfind : findPkgM env p "" = findPkgM env p p := by
      simp [findPkgM, hdir, hp, hset _ hres]
    cases n with
    | zero => simp [copyPkgAux]
    | succ n => simp only [copyPkgAux, hfind]

/-- Witness for C10 at the concrete resolver `fetchAllEnv` (which, like
`go/build` on a non-local import, echoes the looked-up path as the import
path) and the ordinary import path `"github.com/u/q"`. -/
theorem claim_C10_default_import_path_witness :
    copyPkgAux fetchAllEnv 1 { resolved := [], log := [] }
        "github.com/u/q" "" =
      copyPkgAux fetchAllEnv 1 { resolved := [], log := [] }
        "github.com/u/q" "github.com/u/q" :=
  claim_C10_default_import_path fetchAllEnv 1 { resolved := [], log := [] }
    "github.com/u/q" (by decide) (by decide)

/-!
## The walk level: `filepath.Walk`, `findSubPkgs`, `copyDir`

A directory tree is given explicitly as an `FSTree`; `walkNode`/`walkList`
embed `filepath.Walk`'s visiting order and `SkipDir` protocol: a callback
returning `SkipDir` on a directory prunes that directory's children, and on
a file it aborts the remaining siblings (the boolean signal, absorbed by the
parent when the child was a directory).  Paths are built with `/` as in
`filepath.Join`.
-/

/-- A file-system subtree: entry name (not full path) and permission bits,
directories with an ordered list of children (the model's stand-in for
`filepath.Walk`'s lexical order). -/
inductive FSTree where
  | file (name : String) (mode : Nat)
  | dir (name : String) (mode : Nat) (children : List FSTree)
  deriving Repr

/-- Entry name of a tree node (`os.FileInfo.Name()`). -/
def FSTree.name : FSTree → String
  | .file n _ => n
  | .dir n _ _ => n

/-- Whether a tree node is a directory (`os.FileInfo.IsDir()`). -/
def FSTree.isDir : FSTree → Bool
  | .file _ _ => false
  | .dir _ _ _ => true

mutual

/-- Entry names in a real file system never contain `/`; several path
lemmas need this. -/
def slashFreeTree : FSTree → Bool
  | .file n _ => !n.data.contains '/'
  | .dir n _ cs => !n.data.contains '/' && slashFreeList cs

/-- `slashFreeTree` for every tree in a list. -/
def slashFreeList : List FSTree → Bool
  | [] => true
  | t :: ts => slashFreeTree t && slashFreeList ts

end

/-- The `os.FileInfo` fields the two callbacks read. -/
structure FileInfo where
  name : String
  isDir : Bool
  mode : Nat

mutual

/-- `filepath.Walk`'s recursion on one node: visit the node (invoke the
callback), then, for a directory whose callback did not return `SkipDir`,
walk the children.  The boolean result signals `SkipDir` to the caller. -/
def walkNode {σ : Type} (cb : σ → String → FileInfo → σ × Bool) (s : σ)
    (path : String) : FSTree → σ × Bool
  | .file n m => cb s path ⟨n, false, m⟩
  | .dir n m cs =>
    let r := cb s path ⟨n, true, m⟩
    if r.2 then (r.1, true)
    else walkList cb r.1 path cs

/-- `filepath.Walk`'s loop over a directory's entries.  A `SkipDir` signal
from a directory child is absorbed; from a file child it aborts the loop
and propagates (to be absorbed one level up). -/
def walkList {σ : Type} (cb : σ → String → FileInfo → σ × Bool) (s : σ)
    (dirPath : String) : List FSTree → σ × Bool
  | [] => (s, false)
  | c :: rest =>
    let r := walkNode cb s (dirPath ++ "/" ++ c.name) c
    if r.2 then
      if c.isDir then walkList cb r.1 dirPath rest
      else (r.1, true)
    else walkList cb r.1 dirPath rest

end

/-- `filepath.Walk(root, cb)`: walk the whole tree, dropping the final
`SkipDir` signal. -/
def walkTree {σ : Type} (cb : σ → String → FileInfo → σ × Bool) (s : σ)
    (root : String) (t : FSTree) : σ :=
  (walkNode cb s root t).1

/-- Ghost instrumentation: run the same walk while also recording every path
on which the callback is invoked. -/
def ghostCb {σ : Type} (cb : σ → String → FileInfo → σ × Bool) :
    σ × List String → String → FileInfo → (σ × List String) × Bool :=
  fun sv path i =>
    let r := cb sv.1 path i
    ((r.1, sv.2 ++ [path]), r.2)

/-- The list of paths visited by `filepath.Walk(root, cb)` from state `s`. -/
def walkVisits {σ : Type} (cb : σ → String → FileInfo → σ × Bool) (s : σ)
    (root : String) (t : FSTree) : List String :=
  ((walkNode (ghostCb cb) (s, []) root t).1).2

/-- `p` lies strictly inside the directory `W`: `p = W ++ "/" ++ more`
(stated on the underlying character lists). -/
def strictlyUnder (W p : String) : Prop :=
  ∃ t : List Char, p.data = W.data ++ '/' :: t

/-- `filepath.Rel(base, p)` as the two walks use it: `p` is `base` itself
(relative path `.`) or lies under `base ++ "/"`; anything else is the error
case (`none`). -/
def relPath (base p : String) : Option String :=
  if p = base then some "."
  else if hasPrefix p (base ++ "/") then
    some ⟨p.data.drop (base.data.length + 1)⟩
  else none

/-- `filepath.Join(dst, rel)` for a relative path produced by `relPath`. -/
def joinRel (dst rel : String) : String :=
  if rel = "." then dst else dst ++ "/" ++ rel

/-- `info.Name()[0] == '.'` (Go would panic on an empty name; entry names
are never empty). -/
def headIsDot (s : String) : Bool :=
  s.data.head? = some '.'

/-- The walk callback of `findSubPkgs(basePath, baseImportPath)` from
`pcp.go`, over the accumulator `ret`: skip the root, skip the workspace
directory (`SkipDir`), and for every other directory synthesize
`baseImportPath + "/" + rel` and keep `(pkg.Dir, pkg.ImportPath)` when
`findPkg` succeeds. -/
def findSubPkgsCb (env : Env) (basePath baseImportPath : String) :
    List (String × String) → String → FileInfo →
      List (String × String) × Bool :=
  fun ret path info =>
    if path = basePath then (ret, false)
    else if info.isDir then
      if path = env.workspace then (ret, true)
      else
        match relPath basePath path with
        | none => (ret, false)
        | some rel =>
          let newImportPath := baseImportPath ++ "/" ++ rel
          let res := findPkgM env path newImportPath
          match res.2 with
          | some _ => (ret, false)
          | none => (ret ++ [(res.1.dir, res.1.importPath)], false)
    else (ret, false)

/-- `findSubPkgs(basePath, baseImportPath)` over an explicit tree rooted at
`basePath`. -/
def findSubPkgsWalk (env : Env) (basePath baseImportPath : String)
    (t : FSTree) : List (String × String) :=
  walkTree (findSubPkgsCb env basePath baseImportPath) [] basePath t

/-- Oracles and globals consumed by `copyDir`: the `hidden` flag, the
`workspace` global, and per-path failure oracles for `os.MkdirAll`, for
`copyFile` (`os.Open`/`os.Create`/`io.Copy` combined) and for `os.Chmod`. -/
structure CopyEnv where
  hidden : Bool
  workspace : String
  mkdirErr : String → Option String
  copyFileErr : String → String → Option String
  chmodErr : String → Nat → Option String

/-- The file-system effects of `copyDir`, recorded in program order:
`os.MkdirAll(path, 0744)`, the file creation inside `copyFile`, and
`os.Chmod(path, mode)` from the second pass. -/
inductive FsAction where
  | mkdirAll (path : String) (mode : Nat)
  | createFile (path : String)
  | chmod (path : String) (mode : Nat)
  deriving Repr, DecidableEq

/-- Whether an action is a chmod. -/
def FsAction.isChmod : FsAction → Bool
  | .chmod _ _ => true
  | _ => false

/-- The state `copyDir` accumulates: the error slice `errs`, the
`stack []chmod` of destination paths with their source modes, and the
recorded effect trace. -/
structure CopySt where
  errs : List GoErr
  stack : List (String × Nat)
  trace : List FsAction
  deriving Repr, DecidableEq

/-- The walk callback `copyFunc` of `copyDir(src, dst)` from `pcp.go`:
skip hidden entries (`SkipDir` for directories), skip the workspace
(`SkipDir`), compute `dstPath = Join(dst, Rel(src, path))`, then either
`MkdirAll(dstPath, 0744)` (pushing to the chmod stack on success) or
`copyFile(path, dstPath)` (pushing to the chmod stack even on failure).
The `err != nil` parameter branch of the source is not modelled: the tree
is given, so `lstat` never fails.  The `Rel` error case, where the source
panics, is unreachable on a rooted walk and modelled as a no-op. -/
def copyDirCb (cenv : CopyEnv) (src dst : String) :
    CopySt → String → FileInfo → CopySt × Bool :=
  fun s path info =>
    if !cenv.hidden && headIsDot info.name then
      if info.isDir then (s, true) else (s, false)
    else if path = cenv.workspace then (s, true)
    else
      match relPath src path with
      | none => (s, false)
      | some rel =>
        let dstPath := joinRel dst rel
        if info.isDir then
          match cenv.mkdirErr dstPath with
          | some e =>
            ({ s with errs := s.errs ++
                [GoErr.fmtErr
                  ("Couldn't create directory \"" ++ dstPath ++ "\": " ++
                    e ++ ".")
                  ("couldn't create dir: " ++ dstPath ++ ": " ++ e)] },
              false)
          | none =>
            ({ s with
                stack := s.stack ++ [(dstPath, info.mode)],
                trace := s.trace ++ [.mkdirAll dstPath 0o744] }, false)
        else
          match cenv.copyFileErr path dstPath with
          | some e =>
            ({ s with
                errs := s.errs ++
                  [GoErr.fmtErr
                    ("Couldn't copy file \"" ++ path ++ "\": " ++ e ++ ".")
                    ("couldn't copy file: " ++ path ++ ": " ++ e)],
                stack := s.stack ++ [(dstPath, info.mode)] }, false)
          | none =>
            ({ s with
                stack := s.stack ++ [(dstPath, info.mode)],
                trace := s.trace ++ [.createFile dstPath] }, false)

/-- The second pass of `copyDir`: `os.Chmod` over the chmod stack in
reverse creation order (the caller passes `stack.reverse`), appending an
error per failed chmod and recording each successful one. -/
def chmodPass (cenv : CopyEnv) : List (String × Nat) → CopySt → CopySt
  | [], s => s
  | pm :: rest, s =>
    match cenv.chmodErr pm.1 pm.2 with
    | some e =>
      chmodPass cenv rest
        { s with errs := s.errs ++
            [GoErr.fmtErr
              ("Couldn't set permissions on \"" ++ pm.1 ++ "\": " ++ e ++
                ".")
              ("couldn't set permissions: " ++ pm.1 ++ ": " ++ e)] }
    | none =>
      chmodPass cenv rest { s with trace := s.trace ++ [.chmod pm.1 pm.2] }

/-- `copyDir(src, dst)` over an explicit tree rooted at `src`: the walk
with `copyFunc`, then the chmod pass over the stack in reverse order. -/
def copyDirModel (cenv : CopyEnv) (src dst : String) (t : FSTree) : CopySt :=
  let s := walkTree (copyDirCb cenv src dst) ⟨[], [], []⟩ src t
  chmodPass cenv s.stack.reverse s

/-- `createWorkspace(path)` from `pcp.go`: empty path is a syntax error;
otherwise the path is made absolute and created with
`os.MkdirAll(absPath, 0744)` (whose failure oracle is omitted: the claim
about it concerns the requested mode). -/
def createWorkspaceM (abs : String → String) (path : String) :
    Except GoErr (String × FsAction) :=
  if path = "" then
    .error (GoErr.syntaxErr "You must provide a workspace path."
      "path is empty")
  else
    .ok (abs path, FsAction.mkdirAll (abs path) 0o744)

/-- A file-system abstraction for the effect trace: each existing path has
permission bits. -/
def FsState := String → Option Nat

/-- Effect of one action: `MkdirAll` and file creation create the entry
(with mode `0744` resp. `0666`, the mode `os.Create` requests) when absent
and leave an existing entry alone; `chmod` sets the entry's bits (the
trace only chmods paths it has created, where `os.Chmod` succeeds). -/
def applyAction (fs : FsState) : FsAction → FsState
  | .mkdirAll p m =>
    if (fs p).isSome then fs else fun q => if q = p then some m else fs q
  | .createFile p =>
    if (fs p).isSome then fs
    else fun q => if q = p then some 0o666 else fs q
  | .chmod p m => fun q => if q = p then some m else fs q

/-- Apply a trace left to right. -/
def applyActions (fs : FsState) (l : List FsAction) : FsState :=
  l.foldl applyAction fs

/-- The empty file system. -/
def emptyFs : FsState := fun _ => none

/-!
## C6: the destination workspace is never descended into

`filepath.Walk` visits a node before its children and both callbacks return
`SkipDir` on a directory whose path equals the workspace, so no visited path
lies strictly inside the workspace.  The path arithmetic needs that entry
names are `/`-free.
-/

/-- If `A ++ c :: x = B ++ c :: y` and `c` does not occur in `x`, then
either the prefixes agree or `A` extends past `B`'s separator. -/
theorem append_cons_cases {α : Type} (c : α) :
    ∀ (A B x y : List α), A ++ c :: x = B ++ c :: y → c ∉ x →
      A = B ∨ ∃ t, A = B ++ c :: t := by
  intro A
  induction A with
  | nil =>
    intro B x y h hx
    cases B with
    | nil => exact Or.inl rfl
    | cons b bs =>
      simp only [List.nil_append, List.cons_append, List.cons.injEq] at h
      obtain ⟨rfl, h2⟩ := h
      exact absurd (h2 ▸ List.mem_append_right bs (List.mem_cons_self c y)) hx
  | cons a as ih =>
    intro B x y h hx
    cases B with
    | nil =>
      simp only [List.cons_append, List.nil_append, List.cons.injEq] at h
      obtain ⟨rfl, h2⟩ := h
      exact Or.inr ⟨as, rfl⟩
    | cons b bs =>
      simp only [List.cons_append, List.cons.injEq] at h
      obtain ⟨rfl, h2⟩ := h
      rcases ih bs x y h2 hx with h3 | ⟨t, h3⟩
      · exact Or.inl (by rw [h3])
      · exact Or.inr ⟨t, by rw [h3]; rfl⟩

/-- A child path `P ++ "/" ++ n` (with `/`-free name `n`) lying strictly
inside `W` forces its parent `P` to be `W` itself or to lie strictly inside
`W`. -/
theorem strictlyUnder_append (W P n : String)
    (hn : n.data.contains '/' = false)
    (h : strictlyUnder W (P ++ "/" ++ n)) : P = W ∨ strictlyUnder W P := by
  obtain ⟨t, ht⟩ := h
  rw [String.data_append, String.data_append] at ht
  have ht' : P.data ++ '/' :: n.data = W.data ++ '/' :: t := by
    simpa using ht
  have hx : '/' ∉ n.data := by
    intro hm
    simp only [List.contains_eq_any_beq] at hn
    simp at hn
    exact hn '/' hm rfl
  rcases append_cons_cases '/' P.data W.data n.data t ht' hx with h1 | ⟨u, hu⟩
  · exact Or.inl (String.ext h1)
  · exact Or.inr ⟨u, hu⟩

mutual

/-- Skip-soundness of the walk on one node: if the callback returns
`SkipDir` on every directory whose path is `W`, then every path the
instrumented walk visits beyond the already-recorded `vs` is not strictly
inside `W`, provided the node's own path is not. -/
theorem walkNode_visits_not_under {σ : Type}
    (cb : σ → String → FileInfo → σ × Bool) (W : String)
    (Hcb : ∀ s i, i.isDir = true → (cb s W i).2 = true) :
    ∀ (t : FSTree) (path : String) (s : σ) (vs : List String),
      slashFreeTree t = true → ¬ strictlyUnder W path →
      ∀ q ∈ ((walkNode (ghostCb cb) (s, vs) path t).1).2,
        q ∈ vs ∨ ¬ strictlyUnder W q
  | .file n m, path, s, vs, hsf, hp, q, hq => by
    simp only [walkNode, ghostCb] at hq
    rcases List.mem_append.mp hq with h | h
    · exact Or.inl h
    · rw [List.mem_singleton.mp h]; exact Or.inr hp
  | .dir n m cs, path, s, vs, hsf, hp, q, hq => by
    simp only [walkNode, ghostCb] at hq
    by_cases hskip : (cb s path ⟨n, true, m⟩).2 = true
    · rw [if_pos hskip] at hq
      rcases List.mem_append.mp hq with h | h
      · exact Or.inl h
      · rw [List.mem_singleton.mp h]; exact Or.inr hp
    · rw [if_neg hskip] at hq
      have hpw : path ≠ W := by
        intro he
        exact hskip (he ▸ Hcb s ⟨n, true, m⟩ rfl)
      have hsl : slashFreeList cs = true := by
        simp only [slashFreeTree, Bool.and_eq_true] at hsf
        exact hsf.2
      rcases walkList_visits_not_under cb W Hcb cs path _ _ hsl hpw hp q hq
        with h | h
      · rcases List.mem_append.mp h with h1 | h1
        · exact Or.inl h1
        · rw [List.mem_singleton.mp h1]; exact Or.inr hp
      · exact Or.inr h

/-- Skip-soundness of the walk on a directory's entry list (the directory
itself at `dirPath ≠ W` and not strictly inside `W`). -/
theorem walkList_visits_not_under {σ : Type}
    (cb : σ → String → FileInfo → σ × Bool) (W : String)
    (Hcb : ∀ s i, i.isDir = true → (cb s W i).2 = true) :
    ∀ (cs : List FSTree) (dirPath : String) (s : σ) (vs : List String),
      slashFreeList cs = true → dirPath ≠ W → ¬ strictlyUnder W dirPath →
      ∀ q ∈ ((walkList (ghostCb cb) (s, vs) dirPath cs).1).2,
        q ∈ vs ∨ ¬ strictlyUnder W q
  | [], _, _, _, _, _, _, q, hq => by
    simp only [walkList] at hq
    exact Or.inl hq
  | c :: rest, dirPath, s, vs, hsl, hdw, hd, q, hq => by
    have hsl' : slashFreeTree c = true ∧ slashFreeList rest = true := by
      simp only [slashFreeList, Bool.and_eq_true] at hsl
      exact hsl
    have hcn : c.name.data.contains '/' = false := by
      cases c with
      | file n m =>
        have := hsl'.1
        simp only [slashFreeTree, Bool.not_eq_true'] at this
        exact this
      | dir n m cs' =>
        have := hsl'.1
        simp only [slashFreeTree, Bool.and_eq_true, Bool.not_eq_true'] at this
        exact this.1
    have hcp : ¬ strictlyUnder W (dirPath ++ "/" ++ c.name) := by
      intro hu
      rcases strictlyUnder_append W dirPath c.name hcn hu with h | h
      · exact hdw h
      · exact hd h
    simp only [walkList] at hq
    by_cases hprop :
        ((walkNode (ghostCb cb) (s, vs) (dirPath ++ "/" ++ c.name) c)).2 = true
    · rw [if_pos hprop] at hq
      by_cases hdir : c.isDir = true
      · rw [if_pos hdir] at hq
        rcases walkList_visits_not_under cb W Hcb rest dirPath _ _ hsl'.2
          hdw hd q hq with h | h
        · rcases walkNode_visits_not_under cb W Hcb c
            (dirPath ++ "/" ++ c.name) s vs hsl'.1 hcp q h with h1 | h1
          · exact Or.inl h1
          · exact Or.inr h1
        · exact Or.inr h
      · rw [if_neg hdir] at hq
        exact walkNode_visits_not_under cb W Hcb c (dirPath ++ "/" ++ c.name)
          s vs hsl'.1 hcp q hq
    · rw [if_neg hprop] at hq
      rcases walkList_visits_not_under cb W Hcb rest dirPath _ _ hsl'.2
        hdw hd q hq with h | h
      · rcases walkNode_visits_not_under cb W Hcb c
          (dirPath ++ "/" ++ c.name) s vs hsl'.1 hcp q h with h1 | h1
        · exact Or.inl h1
        · exact Or.inr h1
      · exact Or.inr h

end

/-- `strictlyUnder` is the decidable prefix test on `W ++ "/"`. -/
theorem strictlyUnder_iff (W p : String) :
    strictlyUnder W p ↔ hasPrefix p (W ++ "/") = true := by
  unfold strictlyUnder hasPrefix
  rw [String.data_append]
  rw [List.isPrefixOf_iff_prefix]
  constructor
  · rintro ⟨t, ht⟩
    exact ⟨t, by rw [ht]; simp⟩
  · rintro ⟨t, ht⟩
    exact ⟨t, by rw [← ht]; simp⟩

/-- C6: during both sub-package discovery (`findSubPkgs`) and tree copy
(`copyDir`), the walk never visits any path strictly inside the destination
workspace: encountering the workspace directory returns `SkipDir`, so a
workspace nested inside a walked source tree is never descended into.
(For `findSubPkgs` the walk root must differ from the workspace: the
`path == basePath` test precedes the workspace test.) -/
theorem claim_C6_workspace_skip :
    (∀ (env : Env) (basePath baseImportPath : String) (t : FSTree),
      slashFreeTree t = true → basePath ≠ env.workspace →
      ¬ strictlyUnder env.workspace basePath →
      ∀ q ∈ walkVisits (findSubPkgsCb env basePath baseImportPath) []
          basePath t, ¬ strictlyUnder env.workspace q) ∧
    (∀ (cenv : CopyEnv) (src dst : String) (t : FSTree),
      slashFreeTree t = true → ¬ strictlyUnder cenv.workspace src →
      ∀ q ∈ walkVisits (copyDirCb cenv src dst)
          { errs := [], stack := [], trace := [] } src t,
        ¬ strictlyUnder cenv.workspace q) := by
  constructor
  · intro env basePath baseImportPath t hsf hbw hbu q hq
    have Hcb : ∀ s i, i.isDir = true →
        (findSubPkgsCb env basePath baseImportPath s env.workspace i).2
          = true := by
      intro s i hi
      simp only [findSubPkgsCb]
      rw [if_neg (fun h => hbw h.symm)]
      simp [hi]
    simp only [walkVisits] at hq
    rcases walkNode_visits_not_under _ env.workspace Hcb t basePath _ []
      hsf hbu q hq with h | h
    · exact absurd h (List.not_mem_nil q)
    · exact h
  · intro cenv src dst t hsf hsu q hq
    have Hcb : ∀ s i, i.isDir = true →
        (copyDirCb cenv src dst s cenv.workspace i).2 = true := by
      intro s i hi
      by_cases hh : (!cenv.hidden && headIsDot i.name) = true
      · simp [copyDirCb, hh, hi]
      · simp [copyDirCb, hh, hi]
    simp only [walkVisits] at hq
    rcases walkNode_visits_not_under _ cenv.workspace Hcb t src _ []
      hsf hsu q hq with h | h
    · exact absurd h (List.not_mem_nil q)
    · exact h

/-- A resolver environment whose workspace `/base/ws` is nested inside the
walked source directory `/base`. -/
def subEnv : Env := { fetchAllEnv with workspace := "/base/ws" }

/-- A `copyDir` environment whose workspace `/base/ws` is nested inside the
walked source directory `/base`. -/
def cenvW : CopyEnv where
  hidden := false
  workspace := "/base/ws"
  mkdirErr := fun _ => none
  copyFileErr := fun _ _ => none
  chmodErr := fun _ _ => none

/-- A source tree that contains the destination workspace `ws` as a
subdirectory. -/
def tree6 : FSTree :=
  .dir "base" 0o755 [.dir "ws" 0o755 [.file "secret" 0o644],
    .file "f.go" 0o644]


/-- Witness for C6: on `tree6` both walks visit `/base`, `/base/ws` and
`/base/f.go` but never `/base/ws/secret`. -/
theorem claim_C6_witness :
    ¬ strictlyUnder "/base/ws" "/base" ∧
      ¬ strictlyUnder "/base/ws" "/base/f.go" := by
  constructor
  · exact claim_C6_workspace_skip.1 subEnv "/base" "b" tree6 (by decide)
      (by decide) (by simp [strictlyUnder_iff]; decide) "/base" (by decide)
  · exact claim_C6_workspace_skip.2 cenvW "/base" "/dst" tree6 (by decide)
      (by simp [strictlyUnder_iff]; decide) "/base/f.go" (by decide)

/-!
## C7: two-phase copy with permission fidelity
-/

mutual

/-- A property of the callback state preserved by every callback invocation
is preserved by walking a node. -/
theorem walkNode_preserves {σ : Type} (cb : σ → String → FileInfo → σ × Bool)
    (P : σ → Prop) (Hcb : ∀ s path i, P s → P (cb s path i).1) :
    ∀ (t : FSTree) (path : String) (s : σ), P s → P (walkNode cb s path t).1
  | .file n m, path, s, hs => Hcb s path ⟨n, false, m⟩ hs
  | .dir n m cs, path, s, hs => by
    simp only [walkNode]
    by_cases hskip : (cb s path ⟨n, true, m⟩).2 = true
    · simpa [hskip] using Hcb s path ⟨n, true, m⟩ hs
    · simp only [hskip, if_false, Bool.false_eq_true]
      exact walkList_preserves cb P Hcb cs path _
        (Hcb s path ⟨n, true, m⟩ hs)

/-- A property of the callback state preserved by every callback invocation
is preserved by walking an entry list. -/
theorem walkList_preserves {σ : Type} (cb : σ → String → FileInfo → σ × Bool)
    (P : σ → Prop) (Hcb : ∀ s path i, P s → P (cb s path i).1) :
    ∀ (cs : List FSTree) (dirPath : String) (s : σ), P s →
      P (walkList cb s dirPath cs).1
  | [], _, s, hs => hs
  | c :: rest, dirPath, s, hs => by
    simp only [walkList]
    have h1 : P (walkNode cb s (dirPath ++ "/" ++ c.name) c).1 :=
      walkNode_preserves cb P Hcb c (dirPath ++ "/" ++ c.name) s hs
    by_cases hprop : (walkNode cb s (dirPath ++ "/" ++ c.name) c).2 = true
    · simp only [hprop, if_true]
      by_cases hdir : c.isDir = true
      · simp only [hdir, if_true]
        exact walkList_preserves cb P Hcb rest dirPath _ h1
      · simp only [hdir, if_false, Bool.false_eq_true]
        exact h1
    · simp only [hprop, if_false, Bool.false_eq_true]
      exact walkList_preserves cb P Hcb rest dirPath _ h1

end

/-- When `os.Chmod` never fails, the second pass appends exactly one chmod
action per stack entry, in the order given, and changes nothing else. -/
theorem chmodPass_none (cenv : CopyEnv)
    (hch : ∀ p m, cenv.chmodErr p m = none) :
    ∀ (l : List (String × Nat)) (s : CopySt),
      chmodPass cenv l s =
        { s with trace := s.trace ++ l.map fun pm =>
            FsAction.chmod pm.1 pm.2 } := by
  intro l
  induction l with
  | nil => intro s; simp [chmodPass]
  | cons pm rest ih =>
    intro s
    simp only [chmodPass, hch pm.1 pm.2]
    rw [ih]
    simp

/-- `applyActions` splits over list append. -/
theorem applyActions_append (fs : FsState) (l₁ l₂ : List FsAction) :
    applyActions fs (l₁ ++ l₂) = applyActions (applyActions fs l₁) l₂ := by
  simp [applyActions, List.foldl_append]

/-- A sequence of chmods leaves paths it does not mention untouched. -/
theorem applyActions_chmods_not_mem :
    ∀ (l : List (String × Nat)) (fs : FsState) (p : String),
      p ∉ l.map Prod.fst →
      applyActions fs (l.map fun pm => FsAction.chmod pm.1 pm.2) p = fs p := by
  intro l
  induction l with
  | nil => intro fs p _; rfl
  | cons pm rest ih =>
    intro fs p hp
    simp only [List.map_cons, List.mem_cons, not_or] at hp
    simp only [List.map_cons, applyActions, List.foldl_cons]
    have := ih (applyAction fs (FsAction.chmod pm.1 pm.2)) p hp.2
    simp only [applyActions] at this
    rw [this]
    simp [applyAction, hp.1]

/-- A sequence of chmods over pairwise-distinct paths sets each mentioned
path to its recorded mode, whatever the prior state. -/
theorem applyActions_chmods_mem :
    ∀ (l : List (String × Nat)) (fs : FsState) (p : String) (m : Nat),
      (p, m) ∈ l → (l.map Prod.fst).Nodup →
      applyActions fs (l.map fun pm => FsAction.chmod pm.1 pm.2) p
        = some m := by
  intro l
  induction l with
  | nil => intro fs p m h _; cases h
  | cons pm rest ih =>
    intro fs p m hm hnd
    simp only [List.map_cons, List.nodup_cons] at hnd
    simp only [List.map_cons, applyActions, List.foldl_cons]
    rcases List.mem_cons.mp hm with h | h
    · subst h
      have hnin : p ∉ rest.map Prod.fst := by simpa using hnd.1
      have h2 := applyActions_chmods_not_mem rest
        (applyAction fs (FsAction.chmod p m)) p hnin
      simp only [applyActions] at h2
      rw [h2]
      simp [applyAction]
    · exact ih _ p m h hnd.2

/-- Invariant of the copy phase of `copyDir` when `MkdirAll` and `copyFile`
succeed: no errors, no chmod actions yet, and every stack entry's
destination path was created (directory with mode `0744`, or file). -/
def copyPhaseInv (s : CopySt) : Prop :=
  s.errs = [] ∧ (∀ a ∈ s.trace, a.isChmod = false) ∧
    ∀ pm ∈ s.stack, ∃ a ∈ s.trace,
      a = FsAction.mkdirAll pm.1 0o744 ∨ a = FsAction.createFile pm.1

/-- `copyFunc` preserves the copy-phase invariant when `MkdirAll` and
`copyFile` succeed. -/
theorem copyDirCb_preserves (cenv : CopyEnv) (src dst : String)
    (hmk : ∀ p, cenv.mkdirErr p = none)
    (hcf : ∀ p q, cenv.copyFileErr p q = none) :
    ∀ s path i, copyPhaseInv s →
      copyPhaseInv (copyDirCb cenv src dst s path i).1 := by
  intro s path i hs
  simp only [copyDirCb]
  split
  · split <;> exact hs
  · split
    · exact hs
    · split
      · exact hs
      · next rel heq =>
        split
        · simp only [hmk]
          refine ⟨hs.1, ?_, ?_⟩
          · intro a ha
            rcases List.mem_append.mp ha with h | h
            · exact hs.2.1 a h
            · rw [List.mem_singleton.mp h]; rfl
          · intro pm hpm
            rcases List.mem_append.mp hpm with h | h
            · obtain ⟨a, ha, hor⟩ := hs.2.2 pm h
              exact ⟨a, List.mem_append_left _ ha, hor⟩
            · rw [List.mem_singleton.mp h]
              exact ⟨FsAction.mkdirAll (joinRel dst rel) 0o744,
                List.mem_append_right _ (List.mem_singleton.mpr rfl),
                Or.inl rfl⟩
        · simp only [hcf]
          refine ⟨hs.1, ?_, ?_⟩
          · intro a ha
            rcases List.mem_append.mp ha with h | h
            · exact hs.2.1 a h
            · rw [List.mem_singleton.mp h]; rfl
          · intro pm hpm
            rcases List.mem_append.mp hpm with h | h
            · obtain ⟨a, ha, hor⟩ := hs.2.2 pm h
              exact ⟨a, List.mem_append_left _ ha, hor⟩
            · rw [List.mem_singleton.mp h]
              exact ⟨FsAction.createFile (joinRel dst rel),
                List.mem_append_right _ (List.mem_singleton.mpr rfl),
                Or.inr rfl⟩

/-- C7: `copyDir` copies contents and creates directories first and applies
the original permission bits in a second pass in reverse creation order.
When `MkdirAll`, `copyFile` and `Chmod` all succeed and the destination
paths are pairwise distinct: the call returns no errors; its effect trace is
the creation phase (which contains no chmod and creates every stack entry,
directories with default mode `0744`) followed by exactly the chmods of the
stack in reverse order; and replaying the trace on an empty file system
gives every copied entry — including read-only files and directories —
permission bits identical to its source mode. -/
theorem claim_C7_permission_fidelity (cenv : CopyEnv) (src dst : String)
    (t : FSTree)
    (hmk : ∀ p, cenv.mkdirErr p = none)
    (hcf : ∀ p q, cenv.copyFileErr p q = none)
    (hch : ∀ p m, cenv.chmodErr p m = none)
    (hnd : ((walkTree (copyDirCb cenv src dst)
        { errs := [], stack := [], trace := [] } src t).stack.map
        Prod.fst).Nodup) :
    (copyDirModel cenv src dst t).errs = [] ∧
    (copyDirModel cenv src dst t).trace =
      (walkTree (copyDirCb cenv src dst)
          { errs := [], stack := [], trace := [] } src t).trace ++
        ((walkTree (copyDirCb cenv src dst)
            { errs := [], stack := [], trace := [] } src t).stack.reverse.map
          fun pm => FsAction.chmod pm.1 pm.2) ∧
    (∀ a ∈ (walkTree (copyDirCb cenv src dst)
        { errs := [], stack := [], trace := [] } src t).trace,
      a.isChmod = false) ∧
    (∀ pm ∈ (walkTree (copyDirCb cenv src dst)
        { errs := [], stack := [], trace := [] } src t).stack,
      ∃ a ∈ (walkTree (copyDirCb cenv src dst)
          { errs := [], stack := [], trace := [] } src t).trace,
        a = FsAction.mkdirAll pm.1 0o744 ∨ a = FsAction.createFile pm.1) ∧
    (∀ pm ∈ (walkTree (copyDirCb cenv src dst)
        { errs := [], stack := [], trace := [] } src t).stack,
      applyActions emptyFs (copyDirModel cenv src dst t).trace pm.1 =
        some pm.2) := by
  have hinv : copyPhaseInv (walkTree (copyDirCb cenv src dst)
      { errs := [], stack := [], trace := [] } src t) :=
    walkNode_preserves _ copyPhaseInv (copyDirCb_preserves cenv src dst hmk hcf)
      t src _ ⟨rfl, by simp, by simp⟩
  set w := walkTree (copyDirCb cenv src dst)
    { errs := [], stack := [], trace := [] } src t with hw
  have hmodel : copyDirModel cenv src dst t =
      { w with trace := w.trace ++ w.stack.reverse.map fun pm =>
          FsAction.chmod pm.1 pm.2 } := by
    simp only [copyDirModel]
    rw [← hw, chmodPass_none cenv hch]
  refine ⟨?_, ?_, hinv.2.1, hinv.2.2, ?_⟩
  · rw [hmodel]
    exact hinv.1
  · rw [hmodel]
  · intro pm hpm
    rw [hmodel, applyActions_append]
    exact applyActions_chmods_mem w.stack.reverse _ pm.1 pm.2
      (List.mem_reverse.mpr hpm)
      (by rw [List.map_reverse]; exact List.nodup_reverse.mpr hnd)

/-- A `copyDir` environment with no failures. -/
def cenv7 : CopyEnv where
  hidden := false
  workspace := "/elsewhere"
  mkdirErr := fun _ => none
  copyFileErr := fun _ _ => none
  chmodErr := fun _ _ => none

/-- A source tree with a read-only root (`0555`), a read-only file (`0444`)
and a non-default-mode subdirectory (`0700`). -/
def tree7 : FSTree :=
  .dir "s" 0o555 [.file "readonly.txt" 0o444, .dir "sub" 0o700
    [.file "b.txt" 0o600]]


/-- Witness for C7: the copy of `tree7` ends with the read-only file at
mode `0444` and the `0700` directory at mode `0700`. -/
theorem claim_C7_witness :
    (copyDirModel cenv7 "/s" "/d" tree7).errs = [] ∧
      applyActions emptyFs (copyDirModel cenv7 "/s" "/d" tree7).trace
        "/d/readonly.txt" = some 0o444 ∧
      applyActions emptyFs (copyDirModel cenv7 "/s" "/d" tree7).trace
        "/d/sub" = some 0o700 := by
  have h := claim_C7_permission_fidelity cenv7 "/s" "/d" tree7
    (fun _ => rfl) (fun _ _ => rfl) (fun _ _ => rfl) (by decide)
  exact ⟨h.1, h.2.2.2.2 ("/d/readonly.txt", 0o444) (by decide),
    h.2.2.2.2 ("/d/sub", 0o700) (by decide)⟩

/-!
## C8: modes of created directories

Every directory the program creates is created with `os.MkdirAll(..., 0744)`
(`createWorkspace` at `pcp.go:189` and `copyDir` at `pcp.go:411`).  Octal
`0744` is owner-rwx / group-read / other-read — not
owner-rwx / group-read-execute / other-none (`0750`) as the claim states.
-/

/-- The chmod pass never appends a `mkdirAll` action. -/
theorem chmodPass_mkdir_mode (cenv : CopyEnv) :
    ∀ (l : List (String × Nat)) (s : CopySt),
      (∀ p m, FsAction.mkdirAll p m ∈ s.trace → m = 0o744) →
      ∀ p m, FsAction.mkdirAll p m ∈ (chmodPass cenv l s).trace →
        m = 0o744 := by
  intro l
  induction l with
  | nil => intro s hs; exact hs
  | cons pm rest ih =>
    intro s hs p m
    simp only [chmodPass]
    cases hc : cenv.chmodErr pm.1 pm.2 with
    | some e =>
      simp only [hc]
      intro hm
      refine ih _ ?_ p m hm
      intro p' m' h
      exact hs p' m' h
    | none =>
      simp only [hc]
      refine fun hm => ih _ ?_ p m hm
      intro p' m' h
      rcases List.mem_append.mp h with h1 | h1
      · exact hs p' m' h1
      · exact absurd (List.mem_singleton.mp h1) (by simp)

/-- The walk callback of `copyDir` only ever creates directories with mode
`0744`. -/
theorem copyDirCb_mkdir_mode (cenv : CopyEnv) (src dst : String) :
    ∀ s path i, (∀ p m, FsAction.mkdirAll p m ∈ s.trace → m = 0o744) →
      ∀ p m, FsAction.mkdirAll p m ∈ (copyDirCb cenv src dst s path i).1.trace
        → m = 0o744 := by
  intro s path i hs p m
  simp only [copyDirCb]
  split
  · split <;> exact hs p m
  · split
    · exact hs p m
    · split
      · exact hs p m
      · next rel heq =>
        split
        · split
          · exact hs p m
          · intro hm
            rcases List.mem_append.mp hm with h1 | h1
            · exact hs p m h1
            · cases List.mem_singleton.mp h1
              rfl
        · split
          · exact hs p m
          · intro hm
            rcases List.mem_append.mp hm with h1 | h1
            · exact hs p m h1
            · exact absurd (List.mem_singleton.mp h1) (by simp)

/-- C8 (amended): every directory the program creates — the workspace root
in `createWorkspace` and every directory during tree copy — is created with
permission bits `0744` (owner rwx, group read, other read), for every
environment, before the post-copy chmod pass possibly overrides them with
the source's own bits. -/
theorem claim_C8_amended_mkdir_mode :
    (∀ (abs : String → String) (path : String) (res : String × FsAction),
      createWorkspaceM abs path = .ok res →
      res.2 = FsAction.mkdirAll res.1 0o744) ∧
    (∀ (cenv : CopyEnv) (src dst : String) (t : FSTree) (p : String)
      (m : Nat),
      FsAction.mkdirAll p m ∈ (copyDirModel cenv src dst t).trace →
      m = 0o744) := by
  constructor
  · intro abs path res h
    simp only [createWorkspaceM] at h
    split at h
    · exact absurd h (by simp)
    · rw [Except.ok.injEq] at h
      rw [← h]
  · intro cenv src dst t p m hm
    simp only [copyDirModel, walkTree] at hm
    refine chmodPass_mkdir_mode cenv _ _ ?_ p m hm
    exact walkNode_preserves (copyDirCb cenv src dst)
      (fun s => ∀ p m, FsAction.mkdirAll p m ∈ s.trace → m = 0o744)
      (copyDirCb_mkdir_mode cenv src dst) t src
      { errs := [], stack := [], trace := [] } (by simp)

/-- C8 (counterexample): the program creates directories with mode `0744`,
and `0744` is not owner-rwx/group-r-x/other-none: it is not `0750`, its
other-bits are `4` (read, not none) and its group-bits are `4` (read, not
read-execute `5`). -/
theorem claim_C8_mode_counterexample :
    createWorkspaceM id "ws" = .ok ("ws", FsAction.mkdirAll "ws" 0o744) ∧
      FsAction.mkdirAll "/d" 0o744 ∈
        (copyDirModel cenv7 "/s" "/d" tree7).trace ∧
      (0o744 : Nat) ≠ 0o750 ∧ (0o744 : Nat) % 8 = 4 ∧
      ((0o744 : Nat) / 8) % 8 = 4 := by
  refine ⟨rfl, by decide, by decide, rfl, rfl⟩

/-- Witness for the amended C8: the workspace root and a copied directory
are both created with mode `0744`. -/
theorem claim_C8_amended_mkdir_mode_witness :
    FsAction.mkdirAll "ws" 0o744 = FsAction.mkdirAll "ws" 0o744 ∧
      (0o744 : Nat) = 0o744 :=
  ⟨claim_C8_amended_mkdir_mode.1 id "ws"
      ("ws", FsAction.mkdirAll "ws" 0o744) rfl,
    claim_C8_amended_mkdir_mode.2 cenv7 "/s" "/d" tree7 "/d" 0o744
      (by decide)⟩

/-!
## The CLI level: `parseImport`, `checkError`, the `main` loop, exit codes

`main` parses each `importPath[:directory]` argument, runs `copyPkg` and
feeds every error through `checkError(false, ...)`, which prints and
records severity in the global `exitCode`; `main` finally exits with
`exitCode` when it is non-zero.  `os.Exit` is modelled as the `Except`
error channel carrying the status; printing to stderr is recorded in
`ProcSt.stderr`.
-/

/-- The process-visible state of the CLI: the global `exitCode` and the
lines printed to stderr. -/
structure ProcSt where
  exitCode : Nat
  stderr : List String
  deriving Repr, DecidableEq

/-- Oracles for the `main` loop: `os.Stat` failure on a directory argument,
`filepath.Abs`, and the error slice of a `copyPkg(location, importPath)`
call. -/
structure MainEnv where
  statErr : String → Option String
  abs : String → String
  copyPkgErrs : String → String → List GoErr

/-- `parseImport(s)` from `pcp.go`: split on the first `:`
(`strings.SplitN(s, ":", 2)`, modelled with `takeWhile`/`dropWhile` so it
evaluates); an empty import-path part is a `syntaxErr`; a non-empty
directory part is `os.Stat`-checked (failure is a `fmtErr`) and made
absolute. -/
def parseImportM (menv : MainEnv) (s : String) :
    Except GoErr (String × String) :=
  let importPath : String := ⟨s.data.takeWhile (fun c => c ≠ ':')⟩
  let dirPart : String := ⟨(s.data.dropWhile (fun c => c ≠ ':')).tail⟩
  if importPath = "" then
    .error (GoErr.syntaxErr ("\"" ++ s ++ "\" isn't a valid import path.")
      "invalid import path")
  else if s.data.contains ':' && dirPart ≠ "" then
    match menv.statErr dirPart with
    | some e =>
      .error (GoErr.fmtErr ("\"" ++ dirPart ++ "\" isn't valid directory.")
        e)
    | none => .ok (importPath, menv.abs dirPart)
  else .ok (importPath, "")

/-- `checkError(fatal, errs...)` from `pcp.go`: the first error is switched
on by type; a `syntaxErr` prints its message and the usage text and — when
not fatal — RETURNS WITHOUT TOUCHING `exitCode`; a `fmtErr` or any other
error prints and sets `exitCode = 3` when not fatal; when fatal the process
exits with 2 (`syntaxErr`) or 1 (anything else).  With no errors it returns
`false`. -/
def checkErrorM (fatal : Bool) (errs : List GoErr) (st : ProcSt) :
    Except (Nat × ProcSt) (Bool × ProcSt) :=
  match errs with
  | [] => .ok (false, st)
  | e :: _ =>
    match e with
    | .syntaxErr f _ =>
      let st₁ : ProcSt := { st with stderr := st.stderr ++ [f, "usage"] }
      if fatal then .error (2, st₁) else .ok (true, st₁)
    | .fmtErr f _ =>
      let st₁ : ProcSt := { st with stderr := st.stderr ++ [f] }
      if fatal then .error (1, st₁)
      else .ok (true, { st₁ with exitCode := 3 })
    | .other msg =>
      let st₁ : ProcSt := { st with stderr := st.stderr ++ [msg] }
      if fatal then .error (1, st₁)
      else .ok (true, { st₁ with exitCode := 3 })

/-- The argument loop of `main`: for each `importPath[:directory]` argument,
parse it (feeding a parse error through `checkError(false, ·)` and
continuing), otherwise run `copyPkg` — on `(dir, importPath)` when a
directory was given, on `(importPath, "")` otherwise — and feed its errors
through `checkError(false, ...)`. -/
def mainLoop (menv : MainEnv) : List String → ProcSt →
    Except (Nat × ProcSt) ProcSt
  | [], st => .ok st
  | a :: rest, st =>
    match parseImportM menv a with
    | .error e =>
      match checkErrorM false [e] st with
      | .error es => .error es
      | .ok (_, st₁) => mainLoop menv rest st₁
    | .ok (importPath, dir) =>
      let errs := if dir ≠ "" then menv.copyPkgErrs dir importPath
        else menv.copyPkgErrs importPath ""
      match checkErrorM false errs st with
      | .error es => .error es
      | .ok (_, st₁) => mainLoop menv rest st₁

/-- The final exit status of a run over the given package arguments:
a fatal `os.Exit` mid-run, or `main`'s trailing
`if exitCode != 0 { os.Exit(exitCode) }` (a normal return exits 0). -/
def mainExit (menv : MainEnv) (args : List String) : Nat :=
  match mainLoop menv args { exitCode := 0, stderr := [] } with
  | .error (c, _) => c
  | .ok st => st.exitCode

/-- A main-loop environment in which directories stat successfully and
`copyPkg` never errors. -/
def menv9 : MainEnv where
  statErr := fun _ => none
  abs := id
  copyPkgErrs := fun _ _ => []

/-- A main-loop environment in which every directory argument fails to
stat. -/
def menv9bad : MainEnv where
  statErr := fun _ => some "no such file or directory"
  abs := id
  copyPkgErrs := fun _ _ => []

/-- C9 (behaviour at the failing input): a run whose only problem is the
malformed package specifier `":dir"` prints the error (and usage) but
terminates with exit status `0`, not `3`: the non-fatal `syntaxErr` arm of
`checkError` never sets `exitCode`.  By contrast an equally non-fatal
`fmtErr` (a directory that fails to stat) does set exit status `3`.  This
contradicts the claim that any recorded non-fatal per-package error,
including a malformed specifier, yields final exit status `3`. -/
theorem claim_C9_syntax_error_exit_code :
    mainExit menv9 [":dir"] = 0 ∧
      mainLoop menv9 [":dir"] { exitCode := 0, stderr := [] } =
        .ok ⟨0, ["\":dir\" isn't a valid import path.", "usage"]⟩ ∧
      mainExit menv9bad ["p:bad"] = 3 := by
  refine ⟨rfl, rfl, rfl⟩
